import Mathlib

/-
Verification of the logaro hierarchical structured logger (Go) against its
natural-language specification.

The embedding models:
  * Go `interface` values that appear in log fields as the inductive `Value`;
  * Go `map[string]interface` as association lists (`Fields`) whose write
    operation (`setK`) mirrors Go map assignment (replace the existing binding
    for the key, or add a new one); Go maps never carry duplicate keys, and all
    maps the code builds here are key-nodup as well (proved below).  Go map
    iteration order is unspecified; the iteration order of an association list
    is fixed, and all statements that depend on map contents are made at the
    level of `lookup`, which is iteration-order independent for key-nodup maps;
  * a nillable Go map parameter as `Option Fields` (`none` = nil map; ranging
    over a nil map is a no-op, which `Option.getD []` reproduces);
  * the mutable tree of `*Logger` nodes as a heap: a list of `LoggerNode`
    records indexed by allocation order, with `parent` a back index.  Every
    node allocated by the API receives the next free index, so a parent index
    is always strictly below its child index; the recursive ancestor walk of
    `mergeFields` uses that bound as fuel and is therefore fully executable;
  * Go `panic` (failed type assertions) as `Except GoPanic`;
  * the sink (`json.Encoder.Encode`) as an oracle argument `encodeErr :
    Option String` — `none` means the write succeeds, `some msg` means Encode
    returns an error with text `msg`.
-/

namespace Logaro

/-- A dynamically typed Go value (`interface`) as far as the logger
inspects it: strings, integers, and string-keyed maps of values. -/
inductive Value where
  | vStr (s : String)
  | vInt (n : Int)
  | vMap (m : List (String × Value))

/-- A Go `map[string]interface` holding log fields, as an association list. -/
abbrev Fields := List (String × Value)

/-- Left-biased choice on optional values: the combinator behind
"later writes win" reasoning about map overlays. -/
def oor : Option Value → Option Value → Option Value
  | some v, _ => some v
  | none, b => b

/-- Go map read `m[k]`: the value stored for `k`, if any (first binding). -/
def lookup : Fields → String → Option Value
  | [], _ => none
  | (k₁, v) :: rest, k => if k = k₁ then some v else lookup rest k

/-- The value of the LAST binding of `k`, used to reason about overlays of
association lists that may carry duplicate keys. -/
def lookupLast : Fields → String → Option Value
  | [], _ => none
  | (k₁, v) :: rest, k => oor (lookupLast rest k) (if k = k₁ then some v else none)

/-- Go map write `m[k] = v`: replace the binding for `k`, or append one. -/
def setK : Fields → String → Value → Fields
  | [], k, v => [(k, v)]
  | (k₁, v₁) :: rest, k, v =>
    if k₁ = k then (k, v) :: rest else (k₁, v₁) :: setK rest k v

/-- The `for key, val := range extra` copy loops of `mergeFields`: write every
binding of `extra` into `base`, later writes winning per key. -/
def overlay (base extra : Fields) : Fields :=
  extra.foldl (fun acc kv => setK acc kv.1 kv.2) base

/-- The keys of a field map, in storage order. -/
def keys (m : Fields) : List String := m.map Prod.fst

/-- The field map has no duplicate keys (every Go map does). -/
def KeysNodup (m : Fields) : Prop := (keys m).Nodup

/-- A Go runtime panic raised by a failed single-value type assertion
(`x.(T)` where the dynamic type of `x` is not `T`). -/
inductive GoPanic where
  | interfaceConversion (msg : String)

/-- The type of the `Serializer` field of a `Logger`:
`func(interface) interface`, which may panic when applied. -/
abbrev SerFn := Value → Except GoPanic Value

/-- The argument of `WithSerializers`: a map from field key to transform.
Go iterates it in unspecified order; each iteration touches only its own key,
so the fixed list order used here is observationally equivalent. -/
abbrev SerTable := List (String × (Value → Value))

/-- The closure `WithSerializers` installs as `child.Serializer`:
for every `(key, serializer)` in the table it evaluates
`data.(map[string]interface \x7b\x7d)[key]` — the inner type assertion is
single-valued and PANICS when `data` is not a map (for instance when
`serializeEntry` applies the closure to the entry message, a string) —
and, when the key is present, overwrites `data[key]` with `serializer(val)`.
With an empty table the loop body never runs and `data` is returned as is. -/
def compositeSerializer (tbl : SerTable) : SerFn := fun data =>
  tbl.foldlM (fun d kf =>
    match d with
    | Value.vMap m =>
      Except.ok (Value.vMap (match lookup m kf.1 with
        | some v => setK m kf.1 (kf.2 v)
        | none => m))
    | _ => Except.error
        (GoPanic.interfaceConversion "interface conversion: the value is not a string-keyed map"))
    data

/-- The record written per log call (`LogEntry` in logaro.go).  The
`Timestamp` comes from `time.Now()`, which the model receives as an
explicit argument of `Log`. -/
structure LogEntry where
  timestamp : String
  message : String
  level : String
  fields : Fields

/-- One `Logger` node of the tree (the struct fields of `Logger` that the
verified code reads or writes; `Writer` is externalized as the encode
oracle passed to `Log`). `parent` and `children` are heap indices. -/
structure LoggerNode where
  level : String
  parent : Option Nat
  children : List Nat
  eventFields : Fields
  serializer : Option SerFn

/-- The allocation arena for `*Logger` pointers: node `i` is the `i`-th
logger allocated.  Children are always allocated after their parent, so a
node's `parent` index is strictly smaller than its own index. -/
abbrev Heap := List LoggerNode

/-- `l.Level` (the zero value is irrelevant: every access made by the API is
to an allocated node). -/
def levelOf (h : Heap) (id : Nat) : String := ((h[id]?).map LoggerNode.level).getD ""

/-- `l.Parent`, as a heap index. -/
def parentOf (h : Heap) (id : Nat) : Option Nat := (h[id]?).bind LoggerNode.parent

/-- `l.EventFields`. -/
def eventFieldsOf (h : Heap) (id : Nat) : Fields :=
  ((h[id]?).map LoggerNode.eventFields).getD []

/-- `l.Serializer`. -/
def serializerOf (h : Heap) (id : Nat) : Option SerFn := (h[id]?).bind LoggerNode.serializer

/-- `l.Children`. -/
def childrenOf (h : Heap) (id : Nat) : List Nat := ((h[id]?).map LoggerNode.children).getD []

/-- `GenerateLogger()`: level "info", no parent, no children, empty
(non-nil) event fields, no serializer. -/
def GenerateLogger : LoggerNode :=
  { level := "info", parent := none, children := [], eventFields := [], serializer := none }

/-- The heap after the explicit root creation: a single root logger. -/
def rootHeap : Heap := [GenerateLogger]

/-- `Logger.mergeFields`, with fuel bounding the ancestor walk.  Go source:
fresh `mergedFields`; if the parent exists, `mergedFields =
l.Parent.mergeFields(l.Parent.EventFields)`; then copy `l.EventFields`
over it and the call-site `fields` (a nillable map) over that.  The
`pid < id` guard is vacuous on heaps built by the API (parents are
allocated before children) and makes the walk terminate on any heap. -/
def mergeFieldsAux (h : Heap) : Nat → Nat → Option Fields → Fields
  | 0, id, fields => overlay (overlay [] (eventFieldsOf h id)) (fields.getD [])
  | fuel + 1, id, fields =>
    overlay (overlay
      (match parentOf h id with
       | some pid =>
         if pid < id then mergeFieldsAux h fuel pid (some (eventFieldsOf h pid)) else []
       | none => [])
      (eventFieldsOf h id)) (fields.getD [])

/-- `l.mergeFields(fields)` for the logger at index `id`: the fuel `id`
always suffices because every parent index is strictly smaller. -/
def mergeFields (h : Heap) (id : Nat) (fields : Option Fields) : Fields :=
  mergeFieldsAux h id id fields

/-- The fresh node built inside `Logger.Child`: same level as the caller,
parent pointing at the caller, event fields merged once and frozen. -/
def childNode (h : Heap) (l : Nat) (fields : Option Fields) : LoggerNode :=
  { level := levelOf h l, parent := some l, children := [],
    eventFields := mergeFields h l fields, serializer := none }

/-- `l.Children = append(l.Children, child)`. -/
def appendChildRef (h : Heap) (l cid : Nat) : Heap :=
  match h[l]? with
  | some n => h.set l { n with children := n.children ++ [cid] }
  | none => h

/-- `child.Serializer = s` on the node at `id`. -/
def setSerializer (h : Heap) (id : Nat) (s : Option SerFn) : Heap :=
  match h[id]? with
  | some n => h.set id { n with serializer := s }
  | none => h

/-- `Logger.Child(fields)`: allocate the child (at index `h.length`) and
append it to the caller's children. -/
def Child (h : Heap) (l : Nat) (fields : Option Fields) : Heap :=
  appendChildRef (h ++ [childNode h l fields]) l h.length

/-- `Logger.WithFields(fields)`: `Child` then copy the caller's serializer
onto the new node. -/
def WithFields (h : Heap) (l : Nat) (fields : Option Fields) : Heap :=
  setSerializer (Child h l fields) h.length (serializerOf h l)

/-- `Logger.WithSerializers(serializers)`: `Child(nil)` then install the
fresh composite serializer on the new node. -/
def WithSerializers (h : Heap) (l : Nat) (tbl : SerTable) : Heap :=
  setSerializer (Child h l none) h.length (some (compositeSerializer tbl))

/-- A public tree-building call, addressed to the logger at index `l`. -/
inductive Op where
  | child (l : Nat) (fields : Option Fields)
  | withFields (l : Nat) (fields : Option Fields)
  | withSerializers (l : Nat) (tbl : SerTable)

/-- Run one creation call.  A call addressed to an unallocated index has no
Go counterpart (it would be a method call on a dangling pointer), so the
model leaves the heap unchanged. -/
def applyOp (h : Heap) : Op → Heap
  | Op.child l fields => if l < h.length then Child h l fields else h
  | Op.withFields l fields => if l < h.length then WithFields h l fields else h
  | Op.withSerializers l tbl => if l < h.length then WithSerializers h l tbl else h

/-- The heap reached from one root by a sequence of creation calls. -/
def buildHeap (ops : List Op) : Heap := ops.foldl applyOp rootHeap

/-- The `levels` table of `isEnabled`; a missing key yields the zero value. -/
def levels (s : String) : Nat :=
  match s with
  | "fatal" => 5
  | "error" => 4
  | "warn" => 3
  | "info" => 2
  | "debug" => 1
  | _ => 0

/-- `l.isEnabled(level)`: `levels[level] >= levels[l.Level]`. -/
def isEnabled (configured candidate : String) : Bool :=
  decide (levels configured ≤ levels candidate)

/-- `Logger.serializeEntry`: apply the serializer to the message and assert
the result back to `string`, then to the fields map and assert the result
back to `map[string]interface \x7b\x7d`; either failed assertion panics. -/
def serializeEntry (ser : SerFn) (entry : LogEntry) : Except GoPanic LogEntry :=
  match ser (Value.vStr entry.message) with
  | Except.error p => Except.error p
  | Except.ok (Value.vStr s) =>
    match ser (Value.vMap entry.fields) with
    | Except.error p => Except.error p
    | Except.ok (Value.vMap fm) => Except.ok { entry with message := s, fields := fm }
    | Except.ok _ => Except.error
        (GoPanic.interfaceConversion "interface conversion: serialized fields are not a string-keyed map")
  | Except.ok _ => Except.error
      (GoPanic.interfaceConversion "interface conversion: serialized message is not a string")

/-- What one `Log` call did: the entries handed to `Writer.Encode`, the
entries the sink durably wrote, and the `fmt.Println` diagnostic lines. -/
structure LogOutput where
  submitted : List LogEntry
  written : List LogEntry
  diagnostics : List String

/-- The body of `Logger.Log(level, message, fields)`: gate on `isEnabled`,
build the entry with merged fields, apply the serializer when one is set
(this can panic), then hand the entry to `Writer.Encode`; an encode error
is printed as a diagnostic and swallowed.  `now` stands for
`time.Now().Format(time.RFC3339)` and `encodeErr` is the sink's verdict on
this write (`none` = success). -/
def logCall (h : Heap) (l : Nat) (now level message : String)
    (fields : Option Fields) (encodeErr : Option String) : Except GoPanic LogOutput :=
  if isEnabled (levelOf h l) level then
    let entry : LogEntry :=
      { timestamp := now, message := message, level := level, fields := mergeFields h l fields }
    match (match serializerOf h l with
           | some ser => serializeEntry ser entry
           | none => Except.ok entry) with
    | Except.error p => Except.error p
    | Except.ok entry =>
      match encodeErr with
      | some msg =>
        Except.ok { submitted := [entry], written := [],
                    diagnostics := ["Error encoding log entry: " ++ msg] }
      | none =>
        Except.ok { submitted := [entry], written := [entry], diagnostics := [] }
  else
    Except.ok { submitted := [], written := [], diagnostics := [] }

/-- `Logger.Log` as a state transformer: the method assigns to no logger
field (its only writes are to the freshly allocated entry and merged map),
so the heap component is returned unchanged, and a `GoPanic` outcome
models the call crashing its caller through a failed type assertion in
the serializer path. -/
def Log (h : Heap) (l : Nat) (now level message : String)
    (fields : Option Fields) (encodeErr : Option String) :
    Heap × Except GoPanic LogOutput :=
  (h, logCall h l now level message fields encodeErr)

/-- Membership of a level name in the five-entry severity table. -/
def knownLevel (s : String) : Bool :=
  decide (s = "debug" ∨ s = "info" ∨ s = "warn" ∨ s = "error" ∨ s = "fatal")

/-- The `eventFields` of the ancestor chain of a node, root first, the node
itself last.  Fuel as in `mergeFieldsAux`. -/
def chainFieldsAux (h : Heap) : Nat → Nat → List Fields
  | 0, id => [eventFieldsOf h id]
  | fuel + 1, id =>
    (match parentOf h id with
     | some pid => if pid < id then chainFieldsAux h fuel pid else []
     | none => []) ++ [eventFieldsOf h id]

/-- The ancestor chain of `eventFields`, root first. -/
def chainFields (h : Heap) (id : Nat) : List Fields := chainFieldsAux h id id

/-- The deep union of the ancestor chain: start from the empty map and
overlay each chain element in turn, so each descendant overrides
same-named ancestor fields. -/
def chainFold (h : Heap) (id : Nat) : Fields := (chainFields h id).foldl overlay []

/-- Field resolution as the specification words it: the deep union of
`eventFields` along the ancestor chain, root first, each descendant
overriding same-named ancestor fields, then the call-site fields
overriding all of those.  Stated independently of `mergeFields` so that
the two can be compared. -/
def specAncestorMerge (h : Heap) (id : Nat) (fields : Option Fields) : Fields :=
  overlay (chainFold h id) (fields.getD [])

/-- The construction invariant of API-built heaps: every node's frozen
`eventFields` is a duplicate-free map that already contains the whole
merge of its ancestor chain. -/
def Inv (h : Heap) : Prop :=
  ∀ id, id < h.length →
    KeysNodup (eventFieldsOf h id) ∧
    ∀ k, lookup (mergeFields h id none) k = lookup (eventFieldsOf h id) k

/-- The example tree of the specification: parent `P` (fields p=1) with
grandchildren `A` (x=1) and `B` (y=2) — indices 1, 2 and 3. -/
def exOps : List Op :=
  [Op.child 0 (some [("p", Value.vInt 1)]),
   Op.child 1 (some [("x", Value.vInt 1)]),
   Op.child 1 (some [("y", Value.vInt 2)])]

/-- The heap holding the example tree. -/
def exHeap : Heap := buildHeap exOps

/-- A redacting transform used in the concrete scenarios. -/
def maskC2 : Value → Value := fun _ => Value.vStr "masked"

/-- root.WithSerializers(secret -> maskC2): the serializer-carrying logger
used to exercise the level filter. -/
def heapC2 : Heap := buildHeap [Op.withSerializers 0 [("secret", maskC2)]]

/-- A redacting transform for the masking scenario. -/
def maskC3 : Value → Value := fun _ => Value.vStr "xxx"

/-- root.WithSerializers(secret -> maskC3). -/
def heapC3 : Heap := buildHeap [Op.withSerializers 0 [("secret", maskC3)]]

/-- The call-site fields of the masking scenario. -/
def fieldsC3 : Fields := [("secret", Value.vStr "abc"), ("other", Value.vStr "x")]

/-- A redacting transform for the crash scenario. -/
def maskC5 : Value → Value := fun _ => Value.vStr "####"

/-- root.WithSerializers(password -> maskC5). -/
def heapC5 : Heap := buildHeap [Op.withSerializers 0 [("password", maskC5)]]

end Logaro

namespace Logaro

theorem oor_none_left (b : Option Value) : oor none b = b := rfl

theorem oor_some_left (v : Value) (b : Option Value) : oor (some v) b = some v := rfl

theorem oor_none_right (a : Option Value) : oor a none = a := by
  cases a <;> rfl

theorem oor_self_left (a b : Option Value) : oor a (oor a b) = oor a b := by
  cases a <;> rfl

theorem oor_assoc (a b c : Option Value) : oor (oor a b) c = oor a (oor b c) := by
  cases a <;> rfl

theorem lookup_setK (m : Fields) (k : String) (v : Value) (k₂ : String) :
    lookup (setK m k v) k₂ = if k₂ = k then some v else lookup m k₂ := by
  induction m with
  | nil => simp [setK, lookup]
  | cons kv rest ih =>
    obtain ⟨k₁, v₁⟩ := kv
    by_cases h₁ : k₁ = k
    · by_cases h₂ : k₂ = k
      · simp [setK, h₁, lookup, h₂]
      · have hk : ¬ k₂ = k₁ := by rw [h₁]; exact h₂
        simp [setK, h₁, lookup, h₂, hk]
    · by_cases h₂ : k₂ = k₁
      · have hk : ¬ k₂ = k := by rw [h₂]; exact h₁
        simp [setK, h₁, lookup, h₂, hk]
      · simp [setK, h₁, lookup, h₂, ih]

theorem overlay_nil_right (base : Fields) : overlay base [] = base := rfl

theorem overlay_cons (base : Fields) (k : String) (v : Value) (rest : Fields) :
    overlay base ((k, v) :: rest) = overlay (setK base k v) rest := rfl

theorem lookup_overlay (base extra : Fields) (k : String) :
    lookup (overlay base extra) k = oor (lookupLast extra k) (lookup base k) := by
  induction extra generalizing base with
  | nil => rfl
  | cons kv rest ih =>
    obtain ⟨k₁, v₁⟩ := kv
    rw [overlay_cons, ih, lookup_setK, lookupLast]
    cases h : lookupLast rest k
    · by_cases h₂ : k = k₁ <;> simp [h₂, oor]
    · simp [oor]

end Logaro


namespace Logaro

theorem keys_setK (m : Fields) (k : String) (v : Value) :
    keys (setK m k v) = if k ∈ keys m then keys m else keys m ++ [k] := by
  induction m with
  | nil => simp [setK, keys]
  | cons kv rest ih =>
    obtain ⟨k₁, v₁⟩ := kv
    by_cases h₁ : k₁ = k
    · simp [setK, h₁, keys]
    · have h₂ : ¬ k = k₁ := fun h => h₁ (by rw [h])
      have hc : keys ((k₁, v₁) :: rest) = k₁ :: keys rest := rfl
      have hc₂ : keys ((k₁, v₁) :: setK rest k v) = k₁ :: keys (setK rest k v) := rfl
      simp only [setK, if_neg h₁, hc, hc₂, ih, List.mem_cons, h₂, false_or]
      by_cases h₃ : k ∈ keys rest <;> simp [h₃]

theorem nodup_setK (m : Fields) (k : String) (v : Value) (hm : KeysNodup m) :
    KeysNodup (setK m k v) := by
  unfold KeysNodup at hm ⊢
  rw [keys_setK]
  by_cases h : k ∈ keys m
  · simpa [h] using hm
  · simp only [h, if_false]
    rw [List.nodup_append]
    refine ⟨hm, List.nodup_singleton k, ?_⟩
    intro a ha hb
    simp only [List.mem_singleton] at hb
    subst hb
    exact h ha

theorem nodup_overlay (base extra : Fields) (hb : KeysNodup base) :
    KeysNodup (overlay base extra) := by
  induction extra generalizing base with
  | nil => exact hb
  | cons kv rest ih => exact ih (setK base kv.1 kv.2) (nodup_setK base kv.1 kv.2 hb)

theorem lookupLast_none_of_not_mem (m : Fields) (k : String) (h : k ∉ keys m) :
    lookupLast m k = none := by
  induction m with
  | nil => rfl
  | cons kv rest ih =>
    obtain ⟨k₁, v₁⟩ := kv
    rw [show keys ((k₁, v₁) :: rest) = k₁ :: keys rest from rfl] at h
    simp only [List.mem_cons, not_or] at h
    simp [lookupLast, ih h.2, h.1, oor]

theorem lookupLast_eq_lookup (m : Fields) (k : String) (hm : KeysNodup m) :
    lookupLast m k = lookup m k := by
  induction m with
  | nil => rfl
  | cons kv rest ih =>
    obtain ⟨k₁, v₁⟩ := kv
    have hm' : k₁ ∉ keys rest ∧ KeysNodup rest := by
      unfold KeysNodup at hm
      rw [show keys ((k₁, v₁) :: rest) = k₁ :: keys rest from rfl] at hm
      exact ⟨(List.nodup_cons.mp hm).1, (List.nodup_cons.mp hm).2⟩
    by_cases h : k = k₁
    · have hnone : lookupLast rest k = none :=
        lookupLast_none_of_not_mem rest k (by rw [h]; exact hm'.1)
      rw [h] at hnone
      simp [lookupLast, lookup, h, hnone, oor]
    · simp [lookupLast, lookup, h, oor_none_right, ih hm'.2]

theorem mergeFieldsAux_congr_fuel (h : Heap) :
    ∀ fuel₁ fuel₂ id fields, id ≤ fuel₁ → id ≤ fuel₂ →
      mergeFieldsAux h fuel₁ id fields = mergeFieldsAux h fuel₂ id fields := by
  intro fuel₁
  induction fuel₁ with
  | zero =>
    intro fuel₂ id fields h₁ h₂
    have hid : id = 0 := Nat.le_zero.mp h₁
    subst hid
    cases fuel₂ with
    | zero => rfl
    | succ fuel₂ =>
      cases hp : parentOf h 0 with
      | none => simp [mergeFieldsAux, hp]
      | some pid => simp [mergeFieldsAux, hp]
  | succ fuel₁ ih =>
    intro fuel₂ id fields h₁ h₂
    cases hp : parentOf h id with
    | none =>
      cases fuel₂ with
      | zero =>
        have hid : id = 0 := Nat.le_zero.mp h₂
        subst hid
        simp [mergeFieldsAux, hp]
      | succ fuel₂ => simp [mergeFieldsAux, hp]
    | some pid =>
      by_cases hlt : pid < id
      · cases fuel₂ with
        | zero =>
          have hid : id = 0 := Nat.le_zero.mp h₂
          subst hid
          exact absurd hlt (Nat.not_lt_zero pid)
        | succ fuel₂ =>
          have hp₁ : pid ≤ fuel₁ := by omega
          have hp₂ : pid ≤ fuel₂ := by omega
          simp [mergeFieldsAux, hp, hlt, ih fuel₂ pid (some (eventFieldsOf h pid)) hp₁ hp₂]
      · cases fuel₂ with
        | zero =>
          have hid : id = 0 := Nat.le_zero.mp h₂
          subst hid
          simp [mergeFieldsAux, hp]
        | succ fuel₂ => simp [mergeFieldsAux, hp, hlt]

theorem mergeFields_eq (h : Heap) (id : Nat) (fields : Option Fields) :
    mergeFields h id fields =
      overlay (overlay
        (match parentOf h id with
         | some pid =>
           if pid < id then mergeFields h pid (some (eventFieldsOf h pid)) else []
         | none => [])
        (eventFieldsOf h id)) (fields.getD []) := by
  unfold mergeFields
  cases hid : id with
  | zero =>
    cases hp : parentOf h 0 with
    | none => simp [mergeFieldsAux, hp]
    | some pid => simp [mergeFieldsAux, hp]
  | succ n =>
    cases hp : parentOf h (n + 1) with
    | none => simp [mergeFieldsAux, hp]
    | some pid =>
      by_cases hlt : pid < n + 1
      · have : pid ≤ n := by omega
        simp [mergeFieldsAux, hp, hlt,
          mergeFieldsAux_congr_fuel h n pid pid (some (eventFieldsOf h pid)) this (Nat.le_refl pid)]
      · simp [mergeFieldsAux, hp, hlt]

theorem nodup_mergeFields (h : Heap) : ∀ id fields, KeysNodup (mergeFields h id fields) := by
  intro id
  induction id using Nat.strong_induction_on with
  | _ id ih =>
    intro fields
    rw [mergeFields_eq]
    apply nodup_overlay
    apply nodup_overlay
    cases hp : parentOf h id with
    | none => simp [KeysNodup, keys]
    | some pid =>
      by_cases hlt : pid < id
      · simpa [hlt] using ih pid hlt (some (eventFieldsOf h pid))
      · simp [hlt, KeysNodup, keys]

theorem lookup_mergeFields (h : Heap) (id : Nat) (fields : Option Fields) (k : String) :
    lookup (mergeFields h id fields) k =
      oor (lookupLast (fields.getD []) k) (lookup (mergeFields h id none) k) := by
  rw [mergeFields_eq h id fields, mergeFields_eq h id none, lookup_overlay]
  simp [Option.getD, overlay_nil_right]

end Logaro

namespace Logaro

theorem chainFieldsAux_congr_fuel (h : Heap) :
    ∀ fuel₁ fuel₂ id, id ≤ fuel₁ → id ≤ fuel₂ →
      chainFieldsAux h fuel₁ id = chainFieldsAux h fuel₂ id := by
  intro fuel₁
  induction fuel₁ with
  | zero =>
    intro fuel₂ id h₁ h₂
    have hid : id = 0 := Nat.le_zero.mp h₁
    subst hid
    cases fuel₂ with
    | zero => rfl
    | succ fuel₂ => cases hp : parentOf h 0 <;> simp [chainFieldsAux, hp]
  | succ fuel₁ ih =>
    intro fuel₂ id h₁ h₂
    cases hp : parentOf h id with
    | none =>
      cases fuel₂ with
      | zero =>
        have hid : id = 0 := Nat.le_zero.mp h₂
        subst hid
        simp [chainFieldsAux, hp]
      | succ fuel₂ => simp [chainFieldsAux, hp]
    | some pid =>
      by_cases hlt : pid < id
      · cases fuel₂ with
        | zero =>
          have hid : id = 0 := Nat.le_zero.mp h₂
          subst hid
          exact absurd hlt (Nat.not_lt_zero pid)
        | succ fuel₂ =>
          have hp₁ : pid ≤ fuel₁ := by omega
          have hp₂ : pid ≤ fuel₂ := by omega
          simp [chainFieldsAux, hp, hlt, ih fuel₂ pid hp₁ hp₂]
      · cases fuel₂ with
        | zero =>
          have hid : id = 0 := Nat.le_zero.mp h₂
          subst hid
          simp [chainFieldsAux, hp]
        | succ fuel₂ => simp [chainFieldsAux, hp, hlt]

theorem chainFields_eq (h : Heap) (id : Nat) :
    chainFields h id =
      (match parentOf h id with
       | some pid => if pid < id then chainFields h pid else []
       | none => []) ++ [eventFieldsOf h id] := by
  unfold chainFields
  cases hid : id with
  | zero =>
    cases hp : parentOf h 0 with
    | none => simp [chainFieldsAux, hp]
    | some pid => simp [chainFieldsAux, hp]
  | succ n =>
    cases hp : parentOf h (n + 1) with
    | none => simp [chainFieldsAux, hp]
    | some pid =>
      by_cases hlt : pid < n + 1
      · have hle : pid ≤ n := by omega
        simp [chainFieldsAux, hp, hlt,
          chainFieldsAux_congr_fuel h n pid pid hle (Nat.le_refl pid)]
      · simp [chainFieldsAux, hp, hlt]

theorem chainFold_eq (h : Heap) (id : Nat) :
    chainFold h id =
      overlay (match parentOf h id with
       | some pid => if pid < id then chainFold h pid else []
       | none => []) (eventFieldsOf h id) := by
  unfold chainFold
  rw [chainFields_eq, List.foldl_append]
  cases hp : parentOf h id with
  | none => simp [List.foldl, overlay]
  | some pid =>
    by_cases hlt : pid < id <;> simp [hlt, List.foldl, overlay]

theorem lookup_chainFold_absorb (h : Heap) (id : Nat) (k : String) :
    oor (lookupLast (eventFieldsOf h id) k) (lookup (chainFold h id) k)
      = lookup (chainFold h id) k := by
  rw [chainFold_eq, lookup_overlay, oor_self_left]

theorem lookup_mergeFields_eq_spec (h : Heap) :
    ∀ id fields k,
      lookup (mergeFields h id fields) k = lookup (specAncestorMerge h id fields) k := by
  intro id
  induction id using Nat.strong_induction_on with
  | _ id ih =>
    intro fields k
    rw [mergeFields_eq]
    unfold specAncestorMerge
    rw [chainFold_eq h id]
    cases hp : parentOf h id with
    | none => rfl
    | some pid =>
      by_cases hlt : pid < id
      · simp only [hlt, if_true]
        have hBk : lookup (mergeFields h pid (some (eventFieldsOf h pid))) k
            = lookup (chainFold h pid) k := by
          rw [ih pid hlt (some (eventFieldsOf h pid)) k]
          unfold specAncestorMerge
          rw [lookup_overlay]
          simpa using lookup_chainFold_absorb h pid k
        rw [lookup_overlay, lookup_overlay, lookup_overlay, lookup_overlay, hBk]
      · simp only [hlt, if_false]

theorem mergeFields_congr (h h' : Heap) (N : Nat)
    (hp : ∀ j, j < N → parentOf h' j = parentOf h j)
    (he : ∀ j, j < N → eventFieldsOf h' j = eventFieldsOf h j) :
    ∀ id, id < N → ∀ fields, mergeFields h' id fields = mergeFields h id fields := by
  intro id
  induction id using Nat.strong_induction_on with
  | _ id ih =>
    intro hid fields
    rw [mergeFields_eq, mergeFields_eq, hp id hid, he id hid]
    cases hpp : parentOf h id with
    | none => rfl
    | some pid =>
      by_cases hlt : pid < id
      · simp only [hlt, if_true]
        rw [he pid (lt_trans hlt hid), ih pid hlt (lt_trans hlt hid) (some (eventFieldsOf h pid))]
      · simp only [hlt, if_false]

end Logaro

namespace Logaro

theorem length_appendChildRef (h : Heap) (l cid : Nat) :
    (appendChildRef h l cid).length = h.length := by
  unfold appendChildRef
  cases h[l]? <;> simp

theorem length_setSerializer (h : Heap) (t : Nat) (s : Option SerFn) :
    (setSerializer h t s).length = h.length := by
  unfold setSerializer
  cases h[t]? <;> simp

theorem length_Child (h : Heap) (l : Nat) (f : Option Fields) :
    (Child h l f).length = h.length + 1 := by
  unfold Child
  rw [length_appendChildRef]
  simp

theorem length_WithFields (h : Heap) (l : Nat) (f : Option Fields) :
    (WithFields h l f).length = h.length + 1 := by
  unfold WithFields
  rw [length_setSerializer, length_Child]

theorem length_WithSerializers (h : Heap) (l : Nat) (tbl : SerTable) :
    (WithSerializers h l tbl).length = h.length + 1 := by
  unfold WithSerializers
  rw [length_setSerializer, length_Child]

theorem Child_getElem_lt (h : Heap) (l : Nat) (f : Option Fields) (id : Nat)
    (hid : id < h.length) :
    ∃ n₀ n₁, h[id]? = some n₀ ∧ (Child h l f)[id]? = some n₁ ∧
      n₁.level = n₀.level ∧ n₁.parent = n₀.parent ∧ n₁.eventFields = n₀.eventFields ∧
      n₁.serializer = n₀.serializer := by
  have happ : (h ++ [childNode h l f])[id]? = h[id]? := List.getElem?_append_left hid
  have hsome : h[id]? = some h[id] := List.getElem?_eq_getElem hid
  unfold Child appendChildRef
  cases hm : (h ++ [childNode h l f])[l]? with
  | none =>
    exact ⟨h[id], h[id], hsome, by rw [happ, hsome], rfl, rfl, rfl, rfl⟩
  | some n =>
    by_cases he : l = id
    · subst he
      have hl' : l < (h ++ [childNode h l f]).length := by simp; omega
      have : h[l]? = some n := by rw [← happ, hm]
      refine ⟨n, { n with children := n.children ++ [h.length] }, this, ?_, rfl, rfl, rfl, rfl⟩
      exact List.getElem?_set_self hl'
    · refine ⟨h[id], h[id], hsome, ?_, rfl, rfl, rfl, rfl⟩
      rw [List.getElem?_set_ne he, happ, hsome]

theorem setSerializer_getElem_ne (h : Heap) (t : Nat) (s : Option SerFn) (id : Nat)
    (hne : t ≠ id) : (setSerializer h t s)[id]? = h[id]? := by
  unfold setSerializer
  cases h[t]? with
  | none => rfl
  | some n => exact List.getElem?_set_ne hne

theorem parentOf_setSerializer_ne (h : Heap) (t : Nat) (s : Option SerFn) (id : Nat)
    (hne : t ≠ id) : parentOf (setSerializer h t s) id = parentOf h id := by
  unfold parentOf
  rw [setSerializer_getElem_ne h t s id hne]

theorem eventFieldsOf_setSerializer_ne (h : Heap) (t : Nat) (s : Option SerFn) (id : Nat)
    (hne : t ≠ id) : eventFieldsOf (setSerializer h t s) id = eventFieldsOf h id := by
  unfold eventFieldsOf
  rw [setSerializer_getElem_ne h t s id hne]

theorem serializerOf_setSerializer_ne (h : Heap) (t : Nat) (s : Option SerFn) (id : Nat)
    (hne : t ≠ id) : serializerOf (setSerializer h t s) id = serializerOf h id := by
  unfold serializerOf
  rw [setSerializer_getElem_ne h t s id hne]

theorem levelOf_setSerializer_ne (h : Heap) (t : Nat) (s : Option SerFn) (id : Nat)
    (hne : t ≠ id) : levelOf (setSerializer h t s) id = levelOf h id := by
  unfold levelOf
  rw [setSerializer_getElem_ne h t s id hne]

theorem Child_stable (h : Heap) (l : Nat) (f : Option Fields) (id : Nat)
    (hid : id < h.length) :
    parentOf (Child h l f) id = parentOf h id ∧
    eventFieldsOf (Child h l f) id = eventFieldsOf h id ∧
    serializerOf (Child h l f) id = serializerOf h id ∧
    levelOf (Child h l f) id = levelOf h id := by
  obtain ⟨n₀, n₁, h₀, h₁, hl, hp, he, hs⟩ := Child_getElem_lt h l f id hid
  exact ⟨by simp [parentOf, h₀, h₁, hp],
         by simp [eventFieldsOf, h₀, h₁, he],
         by simp [serializerOf, h₀, h₁, hs],
         by simp [levelOf, h₀, h₁, hl]⟩

theorem applyOp_stable (h : Heap) (op : Op) (id : Nat) (hid : id < h.length) :
    parentOf (applyOp h op) id = parentOf h id ∧
    eventFieldsOf (applyOp h op) id = eventFieldsOf h id ∧
    serializerOf (applyOp h op) id = serializerOf h id ∧
    levelOf (applyOp h op) id = levelOf h id := by
  have hne : h.length ≠ id := by omega
  cases op with
  | child l f =>
    by_cases hl : l < h.length
    · simpa [applyOp, hl] using Child_stable h l f id hid
    · simp [applyOp, hl]
  | withFields l f =>
    by_cases hl : l < h.length
    · simp only [applyOp, if_pos hl, WithFields]
      rw [parentOf_setSerializer_ne _ _ _ _ hne, eventFieldsOf_setSerializer_ne _ _ _ _ hne,
        serializerOf_setSerializer_ne _ _ _ _ hne, levelOf_setSerializer_ne _ _ _ _ hne]
      exact Child_stable h l f id hid
    · simp [applyOp, hl]
  | withSerializers l tbl =>
    by_cases hl : l < h.length
    · simp only [applyOp, if_pos hl, WithSerializers]
      rw [parentOf_setSerializer_ne _ _ _ _ hne, eventFieldsOf_setSerializer_ne _ _ _ _ hne,
        serializerOf_setSerializer_ne _ _ _ _ hne, levelOf_setSerializer_ne _ _ _ _ hne]
      exact Child_stable h l none id hid
    · simp [applyOp, hl]

end Logaro

namespace Logaro

theorem Child_newNode (h : Heap) (l : Nat) (f : Option Fields) (hl : l < h.length) :
    (Child h l f)[h.length]? = some (childNode h l f) := by
  unfold Child appendChildRef
  cases hm : (h ++ [childNode h l f])[l]? with
  | none => exact List.getElem?_concat_length h (childNode h l f)
  | some n =>
    rw [List.getElem?_set_ne (by omega : l ≠ h.length)]
    exact List.getElem?_concat_length h (childNode h l f)

theorem WithFields_newNode (h : Heap) (l : Nat) (f : Option Fields) (hl : l < h.length) :
    (WithFields h l f)[h.length]? =
      some { childNode h l f with serializer := serializerOf h l } := by
  unfold WithFields setSerializer
  rw [Child_newNode h l f hl]
  exact List.getElem?_set_self (by rw [length_Child]; omega)

theorem WithSerializers_newNode (h : Heap) (l : Nat) (tbl : SerTable) (hl : l < h.length) :
    (WithSerializers h l tbl)[h.length]? =
      some { childNode h l none with serializer := some (compositeSerializer tbl) } := by
  unfold WithSerializers setSerializer
  rw [Child_newNode h l none hl]
  exact List.getElem?_set_self (by rw [length_Child]; omega)

theorem inv_step (h h' : Heap) (l : Nat) (f₀ : Option Fields)
    (hl : l < h.length)
    (hlen : h'.length = h.length + 1)
    (hstab : ∀ j, j < h.length → parentOf h' j = parentOf h j ∧
      eventFieldsOf h' j = eventFieldsOf h j)
    (hpar : parentOf h' h.length = some l)
    (hef : eventFieldsOf h' h.length = mergeFields h l f₀)
    (hInv : Inv h) : Inv h' := by
  intro id hid
  by_cases hlt : id < h.length
  · have hM : mergeFields h' id none = mergeFields h id none :=
      mergeFields_congr h h' h.length (fun j hj => (hstab j hj).1)
        (fun j hj => (hstab j hj).2) id hlt none
    have hE : eventFieldsOf h' id = eventFieldsOf h id := (hstab id hlt).2
    obtain ⟨hnd, hlk⟩ := hInv id hlt
    exact ⟨hE ▸ hnd, fun k => by rw [hM, hE]; exact hlk k⟩
  · have hide : id = h.length := by rw [hlen] at hid; omega
    subst hide
    refine ⟨by rw [hef]; exact nodup_mergeFields h l f₀, fun k => ?_⟩
    rw [mergeFields_eq h' h.length none, hpar]
    simp only [if_pos hl]
    have hMB : mergeFields h' l (some (eventFieldsOf h' l)) =
        mergeFields h l (some (eventFieldsOf h l)) := by
      rw [(hstab l hl).2]
      exact mergeFields_congr h h' h.length (fun j hj => (hstab j hj).1)
        (fun j hj => (hstab j hj).2) l hl _
    rw [hMB, hef]
    rw [show (none : Option Fields).getD [] = [] from rfl, overlay_nil_right, lookup_overlay]
    rw [lookupLast_eq_lookup _ _ (nodup_mergeFields h l f₀)]
    cases hcase : lookup (mergeFields h l f₀) k with
    | some v => rfl
    | none =>
      rw [oor_none_left]
      obtain ⟨hndl, hlkl⟩ := hInv l hl
      have h1 : lookup (mergeFields h l none) k = none := by
        have hthis := lookup_mergeFields h l f₀ k
        rw [hcase] at hthis
        cases hc3 : lookupLast (f₀.getD []) k with
        | none => rw [hc3, oor_none_left] at hthis; exact hthis.symm
        | some v => rw [hc3] at hthis; exact absurd hthis (by simp [oor])
      have h2 : lookup (eventFieldsOf h l) k = none := by rw [← hlkl k]; exact h1
      have h3 : lookupLast (eventFieldsOf h l) k = none := by
        rw [lookupLast_eq_lookup _ _ hndl]; exact h2
      rw [lookup_mergeFields h l (some (eventFieldsOf h l)) k]
      rw [show (some (eventFieldsOf h l)).getD [] = eventFieldsOf h l from rfl, h3, h1]
      rfl

theorem inv_root : Inv rootHeap := by
  intro id hid
  have hz : id = 0 := by simpa [rootHeap] using hid
  subst hz
  exact ⟨by simp [eventFieldsOf, rootHeap, GenerateLogger, KeysNodup, keys], fun k => rfl⟩

theorem inv_applyOp (h : Heap) (op : Op) (hInv : Inv h) : Inv (applyOp h op) := by
  cases op with
  | child l f =>
    by_cases hl : l < h.length
    · simp only [applyOp, if_pos hl]
      exact inv_step h (Child h l f) l f hl (length_Child h l f)
        (fun j hj => ⟨(Child_stable h l f j hj).1, (Child_stable h l f j hj).2.1⟩)
        (by simp [parentOf, Child_newNode h l f hl, childNode])
        (by simp [eventFieldsOf, Child_newNode h l f hl, childNode]) hInv
    · simpa [applyOp, hl] using hInv
  | withFields l f =>
    by_cases hl : l < h.length
    · simp only [applyOp, if_pos hl]
      exact inv_step h (WithFields h l f) l f hl (length_WithFields h l f)
        (fun j hj =>
          ⟨by simpa [applyOp, hl] using (applyOp_stable h (Op.withFields l f) j hj).1,
           by simpa [applyOp, hl] using (applyOp_stable h (Op.withFields l f) j hj).2.1⟩)
        (by simp [parentOf, WithFields_newNode h l f hl, childNode])
        (by simp [eventFieldsOf, WithFields_newNode h l f hl, childNode]) hInv
    · simpa [applyOp, hl] using hInv
  | withSerializers l tbl =>
    by_cases hl : l < h.length
    · simp only [applyOp, if_pos hl]
      exact inv_step h (WithSerializers h l tbl) l none hl (length_WithSerializers h l tbl)
        (fun j hj =>
          ⟨by simpa [applyOp, hl] using (applyOp_stable h (Op.withSerializers l tbl) j hj).1,
           by simpa [applyOp, hl] using (applyOp_stable h (Op.withSerializers l tbl) j hj).2.1⟩)
        (by simp [parentOf, WithSerializers_newNode h l tbl hl, childNode])
        (by simp [eventFieldsOf, WithSerializers_newNode h l tbl hl, childNode]) hInv
    · simpa [applyOp, hl] using hInv

theorem inv_buildHeap (ops : List Op) : Inv (buildHeap ops) := by
  unfold buildHeap
  have hfold : ∀ h, Inv h → Inv (ops.foldl applyOp h) := by
    induction ops with
    | nil => intro h hi; exact hi
    | cons op rest ih => intro h hi; exact ih (applyOp h op) (inv_applyOp h op hi)
  exact hfold rootHeap inv_root

end Logaro

namespace Logaro

/-- C1: for every logger node and call-site field map, `mergeFields`
resolves exactly to the deep union of `eventFields` along the ancestor
chain, root first, descendants overriding same-named ancestor fields and
call-site fields overriding all of those (`specAncestorMerge`); in
particular, in the example tree with parent P (fields p=1), grandchild A
built via child(x=1) resolves to p=1,x=1 and its sibling B built via
child(y=2) resolves to p=1,y=2, neither seeing the other's fields. -/
theorem c1_fields_are_ancestor_chain_union :
    (∀ (h : Heap) (id : Nat) (fields : Option Fields) (k : String),
      lookup (mergeFields h id fields) k = lookup (specAncestorMerge h id fields) k) ∧
    mergeFields exHeap 2 none = [("p", Value.vInt 1), ("x", Value.vInt 1)] ∧
    mergeFields exHeap 3 none = [("p", Value.vInt 1), ("y", Value.vInt 2)] ∧
    lookup (mergeFields exHeap 2 none) "y" = none ∧
    lookup (mergeFields exHeap 3 none) "x" = none :=
  ⟨fun h => lookup_mergeFields_eq_spec h, rfl, rfl, rfl, rfl⟩

/-- C2 is FALSE on the code as stated: on the `withSerializers` logger of
`heapC2` (index 1, configured level "info"), a call at level "info" is
enabled by the severity table, yet the call emits nothing to the sink —
it panics inside the composite serializer when `serializeEntry` applies
it to the entry message (a string).  So emission is not equivalent to
`severity(c) >= severity(l)`. -/
theorem c2_enabled_call_panics_and_emits_nothing :
    isEnabled (levelOf heapC2 1) "info" = true ∧
    Log heapC2 1 "2024-01-01T00:00:00Z" "info" "hello" none none =
      (heapC2, Except.error (GoPanic.interfaceConversion
        "interface conversion: the value is not a string-keyed map")) :=
  ⟨rfl, rfl⟩

/-- C3 is FALSE on the code as stated: logging fields secret="abc",
other="x" on the `withSerializers(secret -> mask)` logger of `heapC3`
does not produce the masked entry — the call panics while serializing the
message, before the fields are ever transformed.  The second conjunct
shows the composite serializer applied to the merged FIELDS map alone
would indeed mask "secret" and leave "other" unchanged: the crash on the
message application is what prevents the claimed entry. -/
theorem c3_masking_log_call_panics :
    Log heapC3 1 "t" "info" "m" (some fieldsC3) none =
      (heapC3, Except.error (GoPanic.interfaceConversion
        "interface conversion: the value is not a string-keyed map")) ∧
    compositeSerializer [("secret", maskC3)]
        (Value.vMap (mergeFields heapC3 1 (some fieldsC3))) =
      Except.ok (Value.vMap [("secret", Value.vStr "xxx"), ("other", Value.vStr "x")]) :=
  ⟨rfl, rfl⟩

/-- C4: a level name outside the five-entry table has severity 0
(zero-value-for-missing-key), so an unrecognized candidate is never
enabled against a known configured level, and an unrecognized configured
level accepts every known candidate. -/
theorem c4_unknown_levels_resolve_to_severity_zero :
    (∀ c, knownLevel c = false → levels c = 0) ∧
    (∀ cfg c, knownLevel cfg = true → knownLevel c = false → isEnabled cfg c = false) ∧
    (∀ cfg c, knownLevel cfg = false → knownLevel c = true → isEnabled cfg c = true) := by
  have hzero : ∀ c, knownLevel c = false → levels c = 0 := by
    intro c hc
    unfold knownLevel at hc
    simp only [decide_eq_false_iff_not, not_or] at hc
    unfold levels
    split <;> simp_all
  have hpos : ∀ cfg, knownLevel cfg = true → 1 ≤ levels cfg := by
    intro cfg hcfg
    unfold knownLevel at hcfg
    simp only [decide_eq_true_eq] at hcfg
    rcases hcfg with h | h | h | h | h <;> subst h <;> simp [levels]
  refine ⟨hzero, fun cfg c hcfg hc => ?_, fun cfg c hcfg hc => ?_⟩
  · unfold isEnabled
    rw [hzero c hc]
    simp only [decide_eq_false_iff_not]
    have := hpos cfg hcfg
    omega
  · unfold isEnabled
    rw [hzero cfg hcfg]
    simp only [decide_eq_true_eq]
    omega

/-- C4 witness: "trace" is unknown (severity 0) and filtered out by an
"info" logger; "warning" is not a known name (the table says "warn"), and
a logger misconfigured with it accepts even "debug". -/
theorem c4_unknown_levels_resolve_to_severity_zero_witness :
    (knownLevel "trace" = false ∧ levels "trace" = 0) ∧
    (knownLevel "info" = true ∧ isEnabled "info" "trace" = false) ∧
    (knownLevel "warning" = false ∧ isEnabled "warning" "debug" = true) :=
  ⟨⟨rfl, c4_unknown_levels_resolve_to_severity_zero.1 "trace" rfl⟩,
   ⟨rfl, c4_unknown_levels_resolve_to_severity_zero.2.1 "info" "trace" rfl rfl⟩,
   ⟨rfl, c4_unknown_levels_resolve_to_severity_zero.2.2 "warning" "debug" rfl rfl⟩⟩

/-- C5 is FALSE on the code as stated.  First conjunct: an encode failure
is indeed swallowed — the diagnostic line is printed and the call returns
normally with nothing durably written.  Second conjunct: a log call CAN
crash its caller — on the `withSerializers` logger of `heapC5` the call
panics in the composite serializer (applied to the string message), so
logging does not always return normally. -/
theorem c5_encode_failure_swallowed_but_serializer_call_crashes :
    Log rootHeap 0 "t" "error" "disk full" none (some "broken pipe") =
      (rootHeap,
        Except.ok
          { submitted := [⟨"t", "disk full", "error", []⟩], written := [],
            diagnostics := ["Error encoding log entry: broken pipe"] }) ∧
    Log heapC5 1 "t" "fatal" "bye" (some [("password", Value.vStr "hunter2")]) none =
      (heapC5, Except.error (GoPanic.interfaceConversion
        "interface conversion: the value is not a string-keyed map")) :=
  ⟨rfl, rfl⟩

/-- C6: serializer inheritance at creation — `child` installs no
serializer, `withFields` copies exactly the caller's, `withSerializers`
installs the fresh composite built from its table, independently of (and
so replacing, not merging with or wrapping) whatever the caller carries. -/
theorem c6_serializer_inheritance_at_creation :
    ∀ (h : Heap) (l : Nat) (f : Option Fields) (tbl : SerTable), l < h.length →
      serializerOf (applyOp h (Op.child l f)) h.length = none ∧
      serializerOf (applyOp h (Op.withFields l f)) h.length = serializerOf h l ∧
      serializerOf (applyOp h (Op.withSerializers l tbl)) h.length =
        some (compositeSerializer tbl) := by
  intro h l f tbl hl
  refine ⟨?_, ?_, ?_⟩
  · simp [applyOp, hl, serializerOf, Child_newNode h l f hl, childNode]
  · simp [applyOp, hl, serializerOf, WithFields_newNode h l f hl]
  · simp [applyOp, hl, serializerOf, WithSerializers_newNode h l tbl hl]

/-- C6 witness: the three creation calls on a live root (the caller itself
carrying a serializer in the third case is covered by the quantification
over heaps, here exercised on `heapC2` whose node 1 carries one). -/
theorem c6_serializer_inheritance_at_creation_witness :
    (1 < heapC2.length ∧
      serializerOf (applyOp heapC2 (Op.child 1 none)) 2 = none ∧
      serializerOf (applyOp heapC2 (Op.withFields 1 none)) 2 = serializerOf heapC2 1 ∧
      serializerOf (applyOp heapC2 (Op.withSerializers 1 [("k", maskC2)])) 2 =
        some (compositeSerializer [("k", maskC2)])) :=
  ⟨by decide, c6_serializer_inheritance_at_creation heapC2 1 none [("k", maskC2)] (by decide)⟩

/-- C7: a log call at a level the configured level filters out is a
no-op — nothing submitted to the sink, nothing written, no diagnostics,
and the logger heap unchanged. -/
theorem c7_disabled_log_call_is_noop :
    ∀ (h : Heap) (l : Nat) (now lvl msg : String) (fields : Option Fields)
      (encodeErr : Option String),
      isEnabled (levelOf h l) lvl = false →
      Log h l now lvl msg fields encodeErr =
        (h, Except.ok { submitted := [], written := [], diagnostics := [] }) := by
  intro h l now lvl msg fields encodeErr hdis
  unfold Log logCall
  rw [hdis]
  simp

/-- C7 witness: a "debug" call on the "info" root. -/
theorem c7_disabled_log_call_is_noop_witness :
    isEnabled (levelOf rootHeap 0) "debug" = false ∧
    Log rootHeap 0 "t" "debug" "m" none none =
      (rootHeap, Except.ok { submitted := [], written := [], diagnostics := [] }) :=
  ⟨rfl, c7_disabled_log_call_is_noop rootHeap 0 "t" "debug" "m" none none rfl⟩

/-- C8: the frozen `eventFields` of every already-existing node survive
every later operation unchanged — each creation call (which does append a
child reference to the parent node) and every `Log` call (which allocates
a fresh merged map and never writes to a logger). -/
theorem c8_eventFields_never_change :
    ∀ (h : Heap) (id : Nat), id < h.length →
      (∀ op : Op, eventFieldsOf (applyOp h op) id = eventFieldsOf h id) ∧
      (∀ (l : Nat) (now lvl msg : String) (fields : Option Fields) (err : Option String),
        eventFieldsOf (Log h l now lvl msg fields err).1 id = eventFieldsOf h id) := by
  intro h id hid
  exact ⟨fun op => (applyOp_stable h op id hid).2.1,
         fun l now lvl msg fields err => rfl⟩

/-- C8 witness: node 1 of the example tree keeps its fields across a
further child creation and a log call. -/
theorem c8_eventFields_never_change_witness :
    1 < exHeap.length ∧
    eventFieldsOf (applyOp exHeap (Op.child 1 (some [("z", Value.vInt 3)]))) 1 =
      eventFieldsOf exHeap 1 ∧
    eventFieldsOf (Log exHeap 1 "t" "info" "m" none none).1 1 = eventFieldsOf exHeap 1 :=
  ⟨by decide,
   (c8_eventFields_never_change exHeap 1 (by decide)).1 (Op.child 1 (some [("z", Value.vInt 3)])),
   (c8_eventFields_never_change exHeap 1 (by decide)).2 1 "t" "info" "m" none none⟩

/-- C9: on API-built heaps the recursive ancestor walk of `mergeFields`
is redundant — it resolves to the plain overlay of the call-site fields
onto the node's own frozen `eventFields`, because each child froze its
caller's full merge at creation. -/
theorem c9_ancestor_walk_redundant_on_built_heaps :
    ∀ (ops : List Op) (id : Nat), id < (buildHeap ops).length →
      ∀ (fields : Option Fields) (k : String),
        lookup (mergeFields (buildHeap ops) id fields) k =
          lookup (overlay (eventFieldsOf (buildHeap ops) id) (fields.getD [])) k := by
  intro ops id hid fields k
  rw [lookup_mergeFields, lookup_overlay, ((inv_buildHeap ops) id hid).2 k]

/-- C9 witness: grandchild A of the example tree, with a same-key
call-site override p=7. -/
theorem c9_ancestor_walk_redundant_on_built_heaps_witness :
    2 < (buildHeap exOps).length ∧
    lookup (mergeFields (buildHeap exOps) 2 (some [("p", Value.vInt 7)])) "p" =
      lookup (overlay (eventFieldsOf (buildHeap exOps) 2) [("p", Value.vInt 7)]) "p" :=
  ⟨by decide,
   c9_ancestor_walk_redundant_on_built_heaps exOps 2 (by decide) (some [("p", Value.vInt 7)]) "p"⟩

/-- C10: passing a nil field map is safe — `withSerializers` takes the
`Child(nil)` path and succeeds, the new node's `eventFields` are exactly
the caller's merged fields with nothing added (same for an explicit
`child(nil)`), and a nil call-site map behaves exactly like an empty one
(`mergeFields` always yields a concrete, possibly empty, map). -/
theorem c10_nil_field_maps_are_safe :
    (∀ (h : Heap) (l : Nat) (tbl : SerTable), l < h.length →
      (applyOp h (Op.withSerializers l tbl)).length = h.length + 1 ∧
      eventFieldsOf (applyOp h (Op.withSerializers l tbl)) h.length = mergeFields h l none ∧
      eventFieldsOf (applyOp h (Op.child l none)) h.length = mergeFields h l none) ∧
    (∀ (h : Heap) (id : Nat), mergeFields h id none = mergeFields h id (some [])) := by
  constructor
  · intro h l tbl hl
    refine ⟨?_, ?_, ?_⟩
    · simp [applyOp, hl, length_WithSerializers]
    · simp [applyOp, hl, eventFieldsOf, WithSerializers_newNode h l tbl hl, childNode]
    · simp [applyOp, hl, eventFieldsOf, Child_newNode h l none hl, childNode]
  · intro h id
    rw [mergeFields_eq, mergeFields_eq]
    rfl

/-- C10 witness: `withSerializers` off node 1 of the example tree, and
nil-versus-empty at grandchild A. -/
theorem c10_nil_field_maps_are_safe_witness :
    1 < exHeap.length ∧
    eventFieldsOf (applyOp exHeap (Op.withSerializers 1 [])) 4 = mergeFields exHeap 1 none ∧
    mergeFields exHeap 2 none = mergeFields exHeap 2 (some []) :=
  ⟨by decide,
   by simpa using (c10_nil_field_maps_are_safe.1 exHeap 1 [] (by decide)).2.1,
   c10_nil_field_maps_are_safe.2 exHeap 2⟩

end Logaro
